import Mathlib

/-!
Verification of `train_ssl.py` (ProCA repository).

The file shallowly embeds the training/evaluation control loop of
`src/train_ssl.py`: learning-rate scheduling, the per-iteration
forward/backward/step sequence, periodic evaluation, metric accumulation,
best-model checkpoint selection, and the `strip_prefix_if_present` helper.

Framework primitives (autograd, SGD weight updates, the segmentation model,
`adjust_learning_rate` from `core.solver`, `torch.distributed.all_reduce`)
are external collaborators with fixed interfaces; they are carried as opaque
function parameters bundled in a `Framework` record, except where a claim
needs their arithmetic content (see `run_testMetrics`).

State dicts are association lists, tensors of per-class counts are lists of
rationals, and machine floats are modelled by exact rational arithmetic.
-/

namespace ProCA

/-- Configuration fields of `cfg` read by `train`/`run_test`
(`cfg.SOLVER.*`, `cfg.MODEL.NUM_CLASSES`, `cfg.OUTPUT_DIR`, ...). -/
structure Config where
  OUTPUT_DIR : String
  BASE_LR : ℚ
  MOMENTUM : ℚ
  WEIGHT_DECAY : ℚ
  BATCH_SIZE : ℕ
  MAX_ITER : ℕ
  STOP_ITER : ℕ
  CHECKPOINT_PERIOD : ℕ
  LR_METHOD : String
  LR_POWER : ℚ
  NUM_CLASSES : ℕ
  deriving Repr, DecidableEq

/-- Python `s.startswith(pre)` (line 25: `key.startswith(prefix)`). -/
def pyStartswith (s pre : String) : Bool :=
  pre.data.isPrefixOf s.data

/-- Auxiliary scanner for Python `str.replace(pat, "")`: removes the
leftmost occurrences of `pat`, non-overlapping, scanning left to right.
The fuel argument is instantiated with the input length, which is enough
because every step consumes at least one character. -/
def removeOccAux (pat : List Char) : ℕ → List Char → List Char
  | _, [] => []
  | 0, s => s
  | Nat.succ fuel, c :: cs =>
    if pat ≠ [] ∧ pat.isPrefixOf (c :: cs) then
      removeOccAux pat fuel (cs.drop (pat.length - 1))
    else
      c :: removeOccAux pat fuel cs

/-- Python `s.replace(pat, "")` (line 31: `key.replace(prefix, "")`):
every non-overlapping occurrence of `pat` is removed, left to right;
an empty `pat` leaves the string unchanged (as in Python when the
replacement is also empty). -/
def removeAll (s pat : String) : String :=
  String.mk (removeOccAux pat.data s.data.length s.data)

/-- `OrderedDict` insertion: assigning to an existing key overwrites its
value in place, a new key is appended at the end. -/
def odInsert {V : Type} (d : List (String × V)) (k : String) (v : V) :
    List (String × V) :=
  if d.any (fun p => p.1 == k) then
    d.map (fun p => if p.1 == k then (k, v) else p)
  else
    d ++ [(k, v)]

/-- Lines 22-32 of `train_ssl.py`: if some key does not start with the
prefix the state dict is returned unchanged; otherwise keys starting with
`prefix + "layer5"` are dropped and each remaining key is inserted into a
fresh `OrderedDict` under `key.replace(prefix, "")`.  (Line 24 sorts the
keys only for the `all` test, which is insensitive to order.) -/
def strip_prefix_if_present {V : Type} (state_dict : List (String × V))
    (pre : String) : List (String × V) :=
  if state_dict.all (fun p => pyStartswith p.1 pre) then
    state_dict.foldl
      (fun acc p =>
        if pyStartswith p.1 (pre ++ "layer5") then acc
        else odInsert acc (removeAll p.1 pre) p.2)
      []
  else
    state_dict

/-- A `torch.optim.SGD` optimizer as the script sees it: the list of
per-parameter-group learning rates (the only group field the script reads
or writes), the constructor hyperparameters, and the opaque internal state
(momentum buffers live in the framework; `σ` is abstract). -/
structure Optimizer (σ : Type) where
  param_groups : List ℚ
  momentum : ℚ
  weight_decay : ℚ
  state : σ
  deriving Repr, DecidableEq

/-- `torch.optim.SGD(model.parameters(), lr, momentum, weight_decay)`
(lines 67-72): a single parameter group at learning rate `lr`, with the
framework's fresh internal state `s0`. -/
def mkSGD {σ : Type} (lr momentum weight_decay : ℚ) (s0 : σ) : Optimizer σ :=
  ⟨[lr], momentum, weight_decay, s0⟩

/-- Lines 124-127: `optimizer.param_groups[index]['lr'] = lr` for every
index, i.e. every group's learning rate is set to `lr`. -/
def setGroupLRs {σ : Type} (lr : ℚ) (o : Optimizer σ) : Optimizer σ :=
  { o with param_groups := o.param_groups.map (fun _ => lr) }

/-- Observable actions of one pass through the training loop body, in
program order.  `runTest` records the iteration at which `run_test` was
invoked and the mIoU it returned; `saveFile` records a `torch.save` path. -/
inductive Event where
  | setLR (fea cls : ℚ)
  | zeroGradFea
  | zeroGradCls
  | forward
  | lossCompute (ignore_index : ℕ) (value : ℚ)
  | backward
  | stepFea
  | stepCls
  | incIteration (iter : ℕ)
  | runTest (iter : ℕ) (mIoU : ℚ)
  | setTrainMode
  | saveFile (name : String)
  deriving Repr, DecidableEq

/-- The dictionary passed to `torch.save` at lines 175-177 / 182-184:
iteration counter, both model state dicts and both optimizer state dicts. -/
structure SavedCkpt (W C σ : Type) where
  iteration : ℕ
  feature_extractor : W
  classifier : C
  optimizer_fea : Optimizer σ
  optimizer_cls : Optimizer σ
  deriving Repr, DecidableEq

/-- `os.path.join(output_dir, name)` for a directory without a trailing
slash. -/
def pathJoin (dir name : String) : String :=
  dir ++ "/" ++ name

/-- Mutable state of `train` during the loop: the iteration counter and best
scores (lines 79, 117-118), current model weights, both optimizers, the
`train()`/`eval()` mode flags, the log of files written by `torch.save`,
and the trace of observable events. -/
structure LoopState (W C σ : Type) where
  iteration : ℕ
  best_mIoU : ℚ
  best_iteration : ℕ
  fea_w : W
  cls_w : C
  opt_fea : Optimizer σ
  opt_cls : Optimizer σ
  fea_training : Bool
  cls_training : Bool
  files : List (String × SavedCkpt W C σ)
  trace : List Event
  deriving Repr, DecidableEq

/-- The external collaborators of `train`, per spec section 1 "delegated to
external collaborators": `adjustLR` is `core.solver.adjust_learning_rate`;
`forwardFn` is `classifier(feature_extractor(input), size)`; `ceLossFn i p b`
is `CrossEntropyLoss(ignore_index=i)` applied to prediction and label;
`sgdStepFea`/`sgdStepCls` map the pre-step weights, the batch (whose
gradients `loss.backward()` produced) and the optimizer to the new weights
and new optimizer internal state; `run_testFn` is the evaluation outcome
`(mIoU, mAcc, allAcc)` as a function of the current weights; `freshState`
is a newly constructed SGD's internal state. -/
structure Framework (W C B P σ : Type) where
  adjustLR : String → ℚ → ℕ → ℕ → ℚ → ℚ
  forwardFn : W → C → B → P
  ceLossFn : ℕ → P → B → ℚ
  sgdStepFea : W → C → B → Optimizer σ → W × σ
  sgdStepCls : W → C → B → Optimizer σ → C × σ
  run_testFn : W → C → ℚ × ℚ × ℚ
  freshState : σ

/-- Lines 171-185, the block guarded by `if save_to_disk:`: when the fresh
`current_mIoU` strictly exceeds `best_mIoU` the checkpoint dictionary is
saved to `OUTPUT_DIR/model_best.pth` and both `best_mIoU` and
`best_iteration` are updated; otherwise the same dictionary is saved to
`OUTPUT_DIR/model_current.pth` and both are left unchanged.  Ranks other
than zero skip the whole block. -/
def checkpointStep {W C σ : Type} (save_to_disk : Bool) (output_dir : String)
    (current_mIoU : ℚ) (s : LoopState W C σ) : LoopState W C σ :=
  if save_to_disk then
    let ck : SavedCkpt W C σ :=
      ⟨s.iteration, s.fea_w, s.cls_w, s.opt_fea, s.opt_cls⟩
    if current_mIoU > s.best_mIoU then
      let filename := pathJoin output_dir "model_best.pth"
      { s with
        files := s.files ++ [(filename, ck)]
        trace := s.trace ++ [Event.saveFile filename]
        best_mIoU := current_mIoU
        best_iteration := s.iteration }
    else
      let filename := pathJoin output_dir "model_current.pth"
      { s with
        files := s.files ++ [(filename, ck)]
        trace := s.trace ++ [Event.saveFile filename] }
  else
    s

/-- One pass through the body of the `for` loop (lines 120-186): compute
`current_lr = adjust_learning_rate(LR_METHOD, BASE_LR, iteration, max_iters,
power=LR_POWER)` and write it into every feature-extractor group and ten
times it into every classifier group; zero both optimizers' gradients;
forward pass, cross-entropy loss with `ignore_index=255`, backward pass;
step the feature-extractor optimizer then the classifier optimizer;
increment `iteration`; then, if `iteration % CHECKPOINT_PERIOD == 0` or
`iteration == STOP_ITER`, run `run_test` (which puts the models in eval
mode), switch both models back to train mode, and run the checkpoint block.
Timing, `meters` updates and log lines (121, 140, 143-165) have no effect
on the modelled state and are omitted. -/
def trainBody {W C B P σ : Type} (F : Framework W C B P σ) (cfg : Config)
    (save_to_disk : Bool) (b : B) (s : LoopState W C σ) : LoopState W C σ :=
  let current_lr :=
    F.adjustLR cfg.LR_METHOD cfg.BASE_LR s.iteration cfg.MAX_ITER cfg.LR_POWER
  let ofea := setGroupLRs current_lr s.opt_fea
  let ocls := setGroupLRs (current_lr * 10) s.opt_cls
  let pred := F.forwardFn s.fea_w s.cls_w b
  let loss := F.ceLossFn 255 pred b
  let fea' := (F.sgdStepFea s.fea_w s.cls_w b ofea).1
  let cls' := (F.sgdStepCls s.fea_w s.cls_w b ocls).1
  let s1 : LoopState W C σ :=
    { s with
      iteration := s.iteration + 1
      fea_w := fea'
      cls_w := cls'
      opt_fea := { ofea with state := (F.sgdStepFea s.fea_w s.cls_w b ofea).2 }
      opt_cls := { ocls with state := (F.sgdStepCls s.fea_w s.cls_w b ocls).2 }
      trace := s.trace ++
        [Event.setLR current_lr (current_lr * 10), Event.zeroGradFea,
         Event.zeroGradCls, Event.forward, Event.lossCompute 255 loss,
         Event.backward, Event.stepFea, Event.stepCls,
         Event.incIteration (s.iteration + 1)] }
  if s1.iteration % cfg.CHECKPOINT_PERIOD = 0 ∨ s1.iteration = cfg.STOP_ITER then
    let current_mIoU := (F.run_testFn s1.fea_w s1.cls_w).1
    let s2 : LoopState W C σ :=
      { s1 with
        fea_training := false
        cls_training := false
        trace := s1.trace ++ [Event.runTest s1.iteration current_mIoU] }
    let s3 : LoopState W C σ :=
      { s2 with
        fea_training := true
        cls_training := true
        trace := s2.trace ++ [Event.setTrainMode] }
    checkpointStep save_to_disk cfg.OUTPUT_DIR current_mIoU s3
  else
    s1

/-- The `for i, (src_input, src_label, _) in enumerate(train_loader)` loop
(lines 120-191) over the finite data loader, with the two `break`
statements at lines 188-191: the loop exits as soon as the incremented
iteration counter equals `MAX_ITER` or `STOP_ITER`. -/
def trainLoop {W C B P σ : Type} (F : Framework W C B P σ) (cfg : Config)
    (save_to_disk : Bool) : List B → LoopState W C σ → LoopState W C σ
  | [], s => s
  | b :: bs, s =>
    let s' := trainBody F cfg save_to_disk b s
    if s'.iteration = cfg.MAX_ITER then s'
    else if s'.iteration = cfg.STOP_ITER then s'
    else trainLoop F cfg save_to_disk bs s'

/-- The loop state on entry to the `for` loop (lines 79, 113-118):
iteration 0, `best_mIoU = 0`, `best_iteration = 0`, both models in train
mode, nothing saved, empty trace. -/
def startLoopState {W C σ : Type} (fea0 : W) (cls0 : C)
    (opt_fea opt_cls : Optimizer σ) : LoopState W C σ :=
  ⟨0, 0, 0, fea0, cls0, opt_fea, opt_cls, true, true, [], []⟩

/-- A model state dict: parameter names mapped to (abstracted) tensors. -/
abbrev SD := List (String × ℚ)

/-- The part of `train`'s state fixed before the loop that the resume
logic can touch. -/
structure InitState (σ : Type) where
  iteration : ℕ
  best_mIoU : ℚ
  best_iteration : ℕ
  fea_sd : SD
  cls_sd : SD
  opt_fea : Optimizer σ
  opt_cls : Optimizer σ
  deriving Repr, DecidableEq

/-- Lines 67-89 and 113-118 condensed: both SGD optimizers are freshly
constructed (feature extractor at `BASE_LR`, classifier at `BASE_LR * 10`),
`iteration` starts at 0; if `cfg.resume` is set, only the
`feature_extractor` and `classifier` entries of the loaded checkpoint are
applied via `load_state_dict` (stripped of the `module.` prefix in the
non-distributed case), while the checkpoint's `iteration`, `optimizer_fea`
and `optimizer_cls` entries are never read; `best_mIoU` and
`best_iteration` start at 0. -/
def initTrain {σ : Type} (cfg : Config) (distributed : Bool) (freshState : σ)
    (fea0 cls0 : SD) (resume : Option (SavedCkpt SD SD σ)) : InitState σ :=
  let optimizer_fea :=
    mkSGD cfg.BASE_LR cfg.MOMENTUM cfg.WEIGHT_DECAY freshState
  let optimizer_cls :=
    mkSGD (cfg.BASE_LR * 10) cfg.MOMENTUM cfg.WEIGHT_DECAY freshState
  let fea_sd :=
    match resume with
    | some ck =>
      if distributed then ck.feature_extractor
      else strip_prefix_if_present ck.feature_extractor "module."
    | none => fea0
  let cls_sd :=
    match resume with
    | some ck =>
      if distributed then ck.classifier
      else strip_prefix_if_present ck.classifier "module."
    | none => cls0
  { iteration := 0
    best_mIoU := 0
    best_iteration := 0
    fea_sd := fea_sd
    cls_sd := cls_sd
    opt_fea := optimizer_fea
    opt_cls := optimizer_cls }

/-- Lines 45-48: the per-worker batch size is
`int(cfg.SOLVER.BATCH_SIZE / world_size)` when distributed (floor division
for non-negative integers) and `cfg.SOLVER.BATCH_SIZE` otherwise. -/
def trainBatchSize (cfg : Config) (distributed : Bool) (world_size : ℕ) : ℕ :=
  if distributed then cfg.BATCH_SIZE / world_size else cfg.BATCH_SIZE

/-- The mIoU values returned by the `run_test` calls recorded in a trace,
in order. -/
def observedMIoUs (t : List Event) : List ℚ :=
  t.filterMap (fun e =>
    match e with
    | Event.runTest _ m => some m
    | _ => none)

/-- Number of feature-extractor optimizer steps recorded in a trace. -/
def countFeaSteps (t : List Event) : ℕ :=
  (t.filter (fun e => e == Event.stepFea)).length

/-- A per-class count vector (one entry per segmentation class). -/
abbrev Vec := List ℚ

/-- The float literal `1e-10` of lines 247, 251, 252, 255, as an exact
rational. -/
def tiny : ℚ := 1 / 10 ^ 10

/-- Elementwise tensor addition on per-class vectors. -/
def vadd (a b : Vec) : Vec := List.zipWith (fun x y => x + y) a b

/-- Modelled from the spec: `AverageMeter` from `core.utils.misc` is not
under `src/`; per the spec's "metric accumulation", `update v` records `v`
as the latest value and adds it into the running sum (`val = v`,
`sum += v`, `count += 1`).  The scalar-zero initial `sum` of the Python
class, which numpy broadcasting turns into a vector at the first update,
is modelled as the zero vector of class count length. -/
structure AverageMeter where
  val : Vec
  sum : Vec
  count : ℕ
  deriving Repr, DecidableEq

/-- Modelled from the spec: a reset `AverageMeter`, for per-class vectors
of length `n`. -/
def AverageMeter.init (n : ℕ) : AverageMeter :=
  ⟨List.replicate n 0, List.replicate n 0, 0⟩

/-- Modelled from the spec: `AverageMeter.update` (see `AverageMeter`). -/
def AverageMeter.update (m : AverageMeter) (v : Vec) : AverageMeter :=
  ⟨v, vadd m.sum v, m.count + 1⟩

/-- The three tensors `intersectionAndUnionGPU` returns for one test batch:
per-class intersection, union and target counts.  The function itself lives
in `core.utils.misc` (outside `src/`); its outputs are the model's inputs. -/
structure TestBatch where
  intersection : Vec
  union : Vec
  target : Vec
  deriving Repr, DecidableEq

/-- `np.mean` of a vector: sum divided by length. -/
def npMean (v : Vec) : ℚ := v.sum / (v.length : ℚ)

/-- Lines 227-255 of `run_test` for a given stream of per-batch
`(intersection, union, target)` triples (already all-reduced in the
distributed case, raw otherwise): the loop updates the three meters with
each batch's tensors; afterwards
`iou_class = intersection_meter.sum / (union_meter.sum + 1e-10)`,
`accuracy_class = intersection_meter.sum / (target_meter.sum + 1e-10)`,
`mIoU = np.mean(iou_class)`, `mAcc = np.mean(accuracy_class)`,
`allAcc = sum(intersection_meter.sum) / (sum(target_meter.sum) + 1e-10)`. -/
def run_testMetrics (n : ℕ) (batches : List TestBatch) : ℚ × ℚ × ℚ :=
  let ms := batches.foldl
    (fun (ms : AverageMeter × AverageMeter × AverageMeter) b =>
      (ms.1.update b.intersection, ms.2.1.update b.union,
       ms.2.2.update b.target))
    (AverageMeter.init n, AverageMeter.init n, AverageMeter.init n)
  let iou_class := List.zipWith (fun i u => i / (u + tiny)) ms.1.sum ms.2.1.sum
  let accuracy_class :=
    List.zipWith (fun i t => i / (t + tiny)) ms.1.sum ms.2.2.sum
  let mIoU := npMean iou_class
  let mAcc := npMean accuracy_class
  let allAcc := ms.1.sum.sum / (ms.2.2.sum.sum + tiny)
  (mIoU, mAcc, allAcc)

/-- Sum of the entries at class index `c` across a list of per-class
vectors. -/
def colSum (vs : List Vec) (c : ℕ) : ℚ :=
  (vs.map (fun v => v.getD c 0)).sum

/-- Elementwise sum of a list of per-class vectors of length `n`. -/
def vsumN (n : ℕ) (vs : List Vec) : Vec :=
  vs.foldl vadd (List.replicate n 0)

/-- `torch.distributed.all_reduce` (default op SUM) at batch index `i`: in
the SPMD loop every rank holds its own `i`-th batch's tensors, and the
collective replaces each with the elementwise sum over all ranks.  `shards`
is the per-rank output of the `DistributedSampler` loader. -/
def allReduceAt (shards : List (List TestBatch)) (n i : ℕ) : TestBatch :=
  { intersection :=
      vsumN n (shards.map (fun sh => (sh.getD i ⟨[], [], []⟩).intersection))
    union := vsumN n (shards.map (fun sh => (sh.getD i ⟨[], [], []⟩).union))
    target := vsumN n (shards.map (fun sh => (sh.getD i ⟨[], [], []⟩).target)) }

/-- `run_test` on rank `r` in the distributed case (lines 230-255 with the
`if distributed:` branch of lines 241-243): rank `r` enumerates its own
shard of the test loader, and each batch's three tensors are all-reduced
across ranks before the meters are updated. -/
def run_testDist (n : ℕ) (shards : List (List TestBatch)) (r : ℕ) :
    ℚ × ℚ × ℚ :=
  run_testMetrics n
    ((List.range (shards.getD r []).length).map (fun i => allReduceAt shards n i))

/-- Number of backward passes recorded in a trace. -/
def countBackwardEvents (t : List Event) : ℕ :=
  (t.filter (fun e => e == Event.backward)).length

/-- The mIoU that `run_test` returns inside one loop body pass: the
evaluation runs on the weights as updated by this iteration's two
optimizer steps. -/
def bodyMIoU {W C B P σ : Type} (F : Framework W C B P σ) (cfg : Config)
    (b : B) (s : LoopState W C σ) : ℚ :=
  let cl := F.adjustLR cfg.LR_METHOD cfg.BASE_LR s.iteration cfg.MAX_ITER cfg.LR_POWER
  (F.run_testFn
    (F.sgdStepFea s.fea_w s.cls_w b (setGroupLRs cl s.opt_fea)).1
    (F.sgdStepCls s.fea_w s.cls_w b (setGroupLRs (cl * 10) s.opt_cls)).1).1

/-- The iterations at which `run_test` was invoked according to a trace,
in order. -/
def testIters (t : List Event) : List ℕ :=
  t.filterMap (fun e =>
    match e with
    | Event.runTest k _ => some k
    | _ => none)

/-- Grand total of a list of per-class vectors (`sum` of a meter's `sum`). -/
def totalSum (vs : List Vec) : ℚ :=
  (vs.map List.sum).sum

/-- A concrete instantiation of the external collaborators, used to
evaluate the model on closed inputs: trivial weights and batches, a
constant learning-rate schedule, and an evaluation returning mIoU 1/2. -/
def cexFramework : Framework Unit Unit Unit Unit Unit where
  adjustLR := fun _ base _ _ _ => base
  forwardFn := fun _ _ _ => ()
  ceLossFn := fun _ _ _ => 0
  sgdStepFea := fun _ _ _ _ => ((), ())
  sgdStepCls := fun _ _ _ _ => ((), ())
  run_testFn := fun _ _ => (1 / 2, 0, 0)
  freshState := ()

/-- A concrete configuration for closed-input evaluations: one iteration,
evaluation every iteration. -/
def cexConfig : Config where
  OUTPUT_DIR := "out"
  BASE_LR := 1
  MOMENTUM := 9 / 10
  WEIGHT_DECAY := 1 / 2000
  BATCH_SIZE := 8
  MAX_ITER := 1
  STOP_ITER := 1
  CHECKPOINT_PERIOD := 1
  LR_METHOD := "poly"
  LR_POWER := 9 / 10
  NUM_CLASSES := 2

/-- The concrete loop state entering the training loop in the closed-input
evaluations. -/
def cexStart : LoopState Unit Unit Unit :=
  startLoopState () () (mkSGD 1 (9 / 10) (1 / 2000) ())
    (mkSGD 10 (9 / 10) (1 / 2000) ())

section ModelLemmas

variable {W C B P σ : Type}

@[simp] lemma checkpointStep_iteration (d : Bool) (od : String) (m : ℚ)
    (s : LoopState W C σ) : (checkpointStep d od m s).iteration = s.iteration := by
  unfold checkpointStep
  split
  · split <;> rfl
  · rfl

@[simp] lemma checkpointStep_opt_fea (d : Bool) (od : String) (m : ℚ)
    (s : LoopState W C σ) : (checkpointStep d od m s).opt_fea = s.opt_fea := by
  unfold checkpointStep
  split
  · split <;> rfl
  · rfl

@[simp] lemma checkpointStep_opt_cls (d : Bool) (od : String) (m : ℚ)
    (s : LoopState W C σ) : (checkpointStep d od m s).opt_cls = s.opt_cls := by
  unfold checkpointStep
  split
  · split <;> rfl
  · rfl

@[simp] lemma checkpointStep_fea_training (d : Bool) (od : String) (m : ℚ)
    (s : LoopState W C σ) :
    (checkpointStep d od m s).fea_training = s.fea_training := by
  unfold checkpointStep
  split
  · split <;> rfl
  · rfl

@[simp] lemma checkpointStep_cls_training (d : Bool) (od : String) (m : ℚ)
    (s : LoopState W C σ) :
    (checkpointStep d od m s).cls_training = s.cls_training := by
  unfold checkpointStep
  split
  · split <;> rfl
  · rfl

@[simp] lemma checkpointStep_trace (d : Bool) (od : String) (m : ℚ)
    (s : LoopState W C σ) :
    (checkpointStep d od m s).trace =
      s.trace ++
        (if d then
          [Event.saveFile (if m > s.best_mIoU then pathJoin od "model_best.pth"
            else pathJoin od "model_current.pth")]
         else []) := by
  unfold checkpointStep
  split
  · split <;> simp_all
  · simp_all

@[simp] lemma checkpointStep_best_mIoU (d : Bool) (od : String) (m : ℚ)
    (s : LoopState W C σ) :
    (checkpointStep d od m s).best_mIoU =
      (if d then (if m > s.best_mIoU then m else s.best_mIoU)
       else s.best_mIoU) := by
  unfold checkpointStep
  split
  · split <;> simp_all
  · simp_all

@[simp] lemma trainBody_iteration (F : Framework W C B P σ) (cfg : Config)
    (std : Bool) (b : B) (s : LoopState W C σ) :
    (trainBody F cfg std b s).iteration = s.iteration + 1 := by
  unfold trainBody
  dsimp only
  split
  · simp
  · rfl

lemma trainBody_opt_fea_param_groups (F : Framework W C B P σ) (cfg : Config)
    (std : Bool) (b : B) (s : LoopState W C σ) :
    (trainBody F cfg std b s).opt_fea.param_groups =
      s.opt_fea.param_groups.map
        (fun _ => F.adjustLR cfg.LR_METHOD cfg.BASE_LR s.iteration
          cfg.MAX_ITER cfg.LR_POWER) := by
  unfold trainBody
  dsimp only
  split
  · simp [setGroupLRs]
  · simp [setGroupLRs]

lemma trainBody_opt_cls_param_groups (F : Framework W C B P σ) (cfg : Config)
    (std : Bool) (b : B) (s : LoopState W C σ) :
    (trainBody F cfg std b s).opt_cls.param_groups =
      s.opt_cls.param_groups.map
        (fun _ => F.adjustLR cfg.LR_METHOD cfg.BASE_LR s.iteration
          cfg.MAX_ITER cfg.LR_POWER * 10) := by
  unfold trainBody
  dsimp only
  split
  · simp [setGroupLRs]
  · simp [setGroupLRs]

lemma trainBody_trace_eq (F : Framework W C B P σ) (cfg : Config)
    (std : Bool) (b : B) (s : LoopState W C σ) :
    (trainBody F cfg std b s).trace =
      s.trace ++
        [Event.setLR
            (F.adjustLR cfg.LR_METHOD cfg.BASE_LR s.iteration cfg.MAX_ITER
              cfg.LR_POWER)
            (F.adjustLR cfg.LR_METHOD cfg.BASE_LR s.iteration cfg.MAX_ITER
              cfg.LR_POWER * 10),
         Event.zeroGradFea, Event.zeroGradCls, Event.forward,
         Event.lossCompute 255
           (F.ceLossFn 255 (F.forwardFn s.fea_w s.cls_w b) b),
         Event.backward, Event.stepFea, Event.stepCls,
         Event.incIteration (s.iteration + 1)] ++
      (if (s.iteration + 1) % cfg.CHECKPOINT_PERIOD = 0 ∨
          s.iteration + 1 = cfg.STOP_ITER then
        [Event.runTest (s.iteration + 1) (bodyMIoU F cfg b s),
         Event.setTrainMode] ++
          (if std then
            [Event.saveFile
              (if bodyMIoU F cfg b s > s.best_mIoU then
                pathJoin cfg.OUTPUT_DIR "model_best.pth"
               else pathJoin cfg.OUTPUT_DIR "model_current.pth")]
           else [])
       else []) := by
  unfold trainBody bodyMIoU
  dsimp only
  split
  case isTrue h =>
    simp
  case isFalse h =>
    simp

lemma trainBody_modes_of_eval (F : Framework W C B P σ) (cfg : Config)
    (std : Bool) (b : B) (s : LoopState W C σ)
    (h : (s.iteration + 1) % cfg.CHECKPOINT_PERIOD = 0 ∨
      s.iteration + 1 = cfg.STOP_ITER) :
    (trainBody F cfg std b s).fea_training = true ∧
      (trainBody F cfg std b s).cls_training = true := by
  unfold trainBody
  rw [if_pos h]
  simp

end ModelLemmas

/-- Claim C1: at an evaluation point, when `save_to_disk` holds, a strictly
improved mIoU writes the full checkpoint (iteration, both model state dicts
and both optimizer state dicts) to `OUTPUT_DIR/model_best.pth` and updates
`best_mIoU`/`best_iteration` to the current values; otherwise the same
checkpoint contents go to `OUTPUT_DIR/model_current.pth` and both trackers
are unchanged. -/
theorem checkpoint_best_selection {W C σ : Type} (output_dir : String)
    (m : ℚ) (s : LoopState W C σ) :
    (m > s.best_mIoU →
      checkpointStep true output_dir m s =
        { s with
          files := s.files ++ [(pathJoin output_dir "model_best.pth",
            ⟨s.iteration, s.fea_w, s.cls_w, s.opt_fea, s.opt_cls⟩)]
          trace := s.trace ++
            [Event.saveFile (pathJoin output_dir "model_best.pth")]
          best_mIoU := m
          best_iteration := s.iteration }) ∧
    (¬ m > s.best_mIoU →
      checkpointStep true output_dir m s =
        { s with
          files := s.files ++ [(pathJoin output_dir "model_current.pth",
            ⟨s.iteration, s.fea_w, s.cls_w, s.opt_fea, s.opt_cls⟩)]
          trace := s.trace ++
            [Event.saveFile (pathJoin output_dir "model_current.pth")] }) := by
  constructor
  · intro h
    unfold checkpointStep
    rw [if_pos rfl, if_pos h]
  · intro h
    unfold checkpointStep
    rw [if_pos rfl, if_neg h]

/-- Closed witness for C1: a strict improvement (1/2 over 0) writes
`model_best.pth` and updates both trackers. -/
theorem checkpoint_best_selection_witness :
    checkpointStep true "out" (1 / 2) cexStart =
      { cexStart with
        files := [(pathJoin "out" "model_best.pth",
          ⟨0, (), (), mkSGD 1 (9 / 10) (1 / 2000) (),
            mkSGD 10 (9 / 10) (1 / 2000) ()⟩)]
        trace := [Event.saveFile (pathJoin "out" "model_best.pth")]
        best_mIoU := 1 / 2
        best_iteration := 0 } := by
  have h := (checkpoint_best_selection (W := Unit) (C := Unit) (σ := Unit)
    "out" (1 / 2) cexStart).1 (by norm_num [cexStart, startLoopState])
  exact h

/-- Claim C2: after the schedule is applied in an iteration, every
classifier parameter group's learning rate is exactly ten times every
feature-extractor group's, the feature-extractor rate equals
`adjust_learning_rate(LR_METHOD, BASE_LR, iteration, max_iters,
power=LR_POWER)`, and the 10x ratio also holds between the two freshly
constructed SGD optimizers (`BASE_LR * 10` vs `BASE_LR`). -/
theorem lr_schedule_ratio {W C B P σ : Type} (F : Framework W C B P σ)
    (cfg : Config) (std : Bool) (b : B) (s : LoopState W C σ)
    (momentum wd : ℚ) (s0 : σ) :
    (∀ lc ∈ (trainBody F cfg std b s).opt_cls.param_groups,
      ∀ lf ∈ (trainBody F cfg std b s).opt_fea.param_groups,
        lc = 10 * lf ∧
        lf = F.adjustLR cfg.LR_METHOD cfg.BASE_LR s.iteration cfg.MAX_ITER
          cfg.LR_POWER) ∧
    (∀ lc ∈ (mkSGD (cfg.BASE_LR * 10) momentum wd s0).param_groups,
      ∀ lf ∈ (mkSGD cfg.BASE_LR momentum wd s0).param_groups,
        lc = 10 * lf) := by
  constructor
  · intro lc hlc lf hlf
    rw [trainBody_opt_cls_param_groups] at hlc
    rw [trainBody_opt_fea_param_groups] at hlf
    simp only [List.mem_map] at hlc hlf
    obtain ⟨_, _, rfl⟩ := hlc
    obtain ⟨_, _, rfl⟩ := hlf
    exact ⟨by ring, rfl⟩
  · intro lc hlc lf hlf
    simp only [mkSGD, List.mem_singleton] at hlc hlf
    subst hlc hlf
    ring

/-- Closed witness for C2: with the constant schedule of `cexFramework`
(base learning rate 1) the classifier group runs at 10 and the
feature-extractor group at 1. -/
theorem lr_schedule_ratio_witness :
    (10 : ℚ) = 10 * 1 ∧
    (1 : ℚ) = cexFramework.adjustLR cexConfig.LR_METHOD cexConfig.BASE_LR
      cexStart.iteration cexConfig.MAX_ITER cexConfig.LR_POWER := by
  have h := (lr_schedule_ratio cexFramework cexConfig true () cexStart
    (9 / 10) (1 / 2000) ()).1 10
    (by simp [trainBody_opt_cls_param_groups, cexFramework, cexConfig,
      cexStart, startLoopState, mkSGD])
    1
    (by simp [trainBody_opt_fea_param_groups, cexFramework, cexConfig,
      cexStart, startLoopState, mkSGD])
  exact h

/-- Claim C10: with `cfg.resume` set, in either the distributed or the
non-distributed case only the model weights are loaded from the checkpoint
-- stripped of the `module.` prefix exactly in the non-distributed case --
while `iteration` and `best_mIoU` still start at 0 and both optimizers
keep their freshly constructed values, even though the checkpoint record
also carries `iteration`, `optimizer_fea` and `optimizer_cls` entries. -/
theorem resume_restores_only_weights {σ : Type} (cfg : Config)
    (distributed : Bool) (fresh : σ) (fea0 cls0 : SD)
    (ck ck' : SavedCkpt SD SD σ)
    (hfe : ck.feature_extractor = ck'.feature_extractor)
    (hcl : ck.classifier = ck'.classifier) :
    initTrain cfg distributed fresh fea0 cls0 (some ck) =
      initTrain cfg distributed fresh fea0 cls0 (some ck') ∧
    initTrain cfg distributed fresh fea0 cls0 (some ck) =
      { iteration := 0
        best_mIoU := 0
        best_iteration := 0
        fea_sd := if distributed then ck.feature_extractor
          else strip_prefix_if_present ck.feature_extractor "module."
        cls_sd := if distributed then ck.classifier
          else strip_prefix_if_present ck.classifier "module."
        opt_fea := mkSGD cfg.BASE_LR cfg.MOMENTUM cfg.WEIGHT_DECAY fresh
        opt_cls := mkSGD (cfg.BASE_LR * 10) cfg.MOMENTUM cfg.WEIGHT_DECAY
          fresh } := by
  constructor
  · simp [initTrain, hfe, hcl]
  · rfl

/-- Closed witness for C10, covering both branches of the resume load:
two checkpoints sharing weights but with different stored iterations and
optimizer states initialize identically, with iteration 0, best mIoU 0
and fresh optimizers; the weights are kept verbatim when distributed and
stripped of `module.` otherwise. -/
theorem resume_restores_only_weights_witness :
    (initTrain cexConfig true () [] []
        (some ⟨7, [("module.w", 1)], [("module.v", 2)],
          mkSGD 3 3 3 (), mkSGD 4 4 4 ()⟩) =
      initTrain cexConfig true () [] []
        (some ⟨0, [("module.w", 1)], [("module.v", 2)],
          mkSGD 5 5 5 (), mkSGD 6 6 6 ()⟩) ∧
    initTrain cexConfig true () [] []
        (some ⟨7, [("module.w", 1)], [("module.v", 2)],
          mkSGD 3 3 3 (), mkSGD 4 4 4 ()⟩) =
      { iteration := 0
        best_mIoU := 0
        best_iteration := 0
        fea_sd := if true then [("module.w", 1)]
          else strip_prefix_if_present [("module.w", 1)] "module."
        cls_sd := if true then [("module.v", 2)]
          else strip_prefix_if_present [("module.v", 2)] "module."
        opt_fea := mkSGD cexConfig.BASE_LR cexConfig.MOMENTUM
          cexConfig.WEIGHT_DECAY ()
        opt_cls := mkSGD (cexConfig.BASE_LR * 10) cexConfig.MOMENTUM
          cexConfig.WEIGHT_DECAY () }) ∧
    (initTrain cexConfig false () [] []
        (some ⟨7, [("module.w", 1)], [("module.v", 2)],
          mkSGD 3 3 3 (), mkSGD 4 4 4 ()⟩) =
      initTrain cexConfig false () [] []
        (some ⟨0, [("module.w", 1)], [("module.v", 2)],
          mkSGD 5 5 5 (), mkSGD 6 6 6 ()⟩) ∧
    initTrain cexConfig false () [] []
        (some ⟨7, [("module.w", 1)], [("module.v", 2)],
          mkSGD 3 3 3 (), mkSGD 4 4 4 ()⟩) =
      { iteration := 0
        best_mIoU := 0
        best_iteration := 0
        fea_sd := if false then [("module.w", 1)]
          else strip_prefix_if_present [("module.w", 1)] "module."
        cls_sd := if false then [("module.v", 2)]
          else strip_prefix_if_present [("module.v", 2)] "module."
        opt_fea := mkSGD cexConfig.BASE_LR cexConfig.MOMENTUM
          cexConfig.WEIGHT_DECAY ()
        opt_cls := mkSGD (cexConfig.BASE_LR * 10) cexConfig.MOMENTUM
          cexConfig.WEIGHT_DECAY () }) :=
  ⟨resume_restores_only_weights cexConfig true () [] []
    ⟨7, [("module.w", 1)], [("module.v", 2)], mkSGD 3 3 3 (), mkSGD 4 4 4 ()⟩
    ⟨0, [("module.w", 1)], [("module.v", 2)], mkSGD 5 5 5 (), mkSGD 6 6 6 ()⟩
    rfl rfl,
   resume_restores_only_weights cexConfig false () [] []
    ⟨7, [("module.w", 1)], [("module.v", 2)], mkSGD 3 3 3 (), mkSGD 4 4 4 ()⟩
    ⟨0, [("module.w", 1)], [("module.v", 2)], mkSGD 5 5 5 (), mkSGD 6 6 6 ()⟩
    rfl rfl⟩

/-- Claim C5: inside every loop body pass the observable actions occur in
program order -- schedule write, gradient zeroing of both optimizers,
forward pass, cross-entropy loss with `ignore_index` 255, a backward pass,
feature-extractor step, classifier step, and only then the iteration
increment -- and exactly one backward pass is added per iteration. -/
theorem per_iteration_order {W C B P σ : Type} (F : Framework W C B P σ)
    (cfg : Config) (std : Bool) (b : B) (s : LoopState W C σ) :
    (s.trace ++
      [Event.setLR
          (F.adjustLR cfg.LR_METHOD cfg.BASE_LR s.iteration cfg.MAX_ITER
            cfg.LR_POWER)
          (F.adjustLR cfg.LR_METHOD cfg.BASE_LR s.iteration cfg.MAX_ITER
            cfg.LR_POWER * 10),
       Event.zeroGradFea, Event.zeroGradCls, Event.forward,
       Event.lossCompute 255
         (F.ceLossFn 255 (F.forwardFn s.fea_w s.cls_w b) b),
       Event.backward, Event.stepFea, Event.stepCls,
       Event.incIteration (s.iteration + 1)]) <+:
      (trainBody F cfg std b s).trace ∧
    countBackwardEvents (trainBody F cfg std b s).trace =
      countBackwardEvents s.trace + 1 := by
  constructor
  · rw [trainBody_trace_eq]
    exact ⟨_, rfl⟩
  · rw [trainBody_trace_eq]
    unfold countBackwardEvents
    split_ifs <;> simp [List.filter_append]

section LoopLemmas

variable {W C B P σ : Type}

lemma trainLoop_iteration_le (F : Framework W C B P σ) (cfg : Config)
    (std : Bool) (bs : List B) (s : LoopState W C σ)
    (h : s.iteration < min cfg.MAX_ITER cfg.STOP_ITER) :
    (trainLoop F cfg std bs s).iteration ≤ min cfg.MAX_ITER cfg.STOP_ITER := by
  induction bs generalizing s with
  | nil => simpa [trainLoop] using h.le
  | cons b bs ih =>
    unfold trainLoop
    dsimp only
    split
    · rw [trainBody_iteration]; omega
    · split
      · rw [trainBody_iteration]; omega
      · rename_i hM hS
        rw [trainBody_iteration] at hM hS
        exact ih _ (by rw [trainBody_iteration]; omega)

lemma trainLoop_iteration_mono (F : Framework W C B P σ) (cfg : Config)
    (std : Bool) (bs : List B) (s : LoopState W C σ) :
    s.iteration ≤ (trainLoop F cfg std bs s).iteration := by
  induction bs generalizing s with
  | nil => simp [trainLoop]
  | cons b bs ih =>
    unfold trainLoop
    dsimp only
    split
    · rw [trainBody_iteration]; omega
    · split
      · rw [trainBody_iteration]; omega
      · exact le_trans (by rw [trainBody_iteration]; omega) (ih _)

lemma trainBody_countFeaSteps (F : Framework W C B P σ) (cfg : Config)
    (std : Bool) (b : B) (s : LoopState W C σ) :
    countFeaSteps (trainBody F cfg std b s).trace =
      countFeaSteps s.trace + 1 := by
  rw [trainBody_trace_eq]
  unfold countFeaSteps
  split_ifs <;> simp [List.filter_append]

lemma trainLoop_countFeaSteps (F : Framework W C B P σ) (cfg : Config)
    (std : Bool) (bs : List B) (s : LoopState W C σ) :
    countFeaSteps (trainLoop F cfg std bs s).trace + s.iteration =
      countFeaSteps s.trace + (trainLoop F cfg std bs s).iteration := by
  induction bs generalizing s with
  | nil => simp [trainLoop]
  | cons b bs ih =>
    unfold trainLoop
    dsimp only
    split
    · rw [trainBody_countFeaSteps, trainBody_iteration]; omega
    · split
      · rw [trainBody_countFeaSteps, trainBody_iteration]; omega
      · have h := ih (trainBody F cfg std b s)
        rw [trainBody_countFeaSteps, trainBody_iteration] at h
        omega

end LoopLemmas

/-- Claim C6: the training loop (structurally recursive over the finite
data loader) exits as soon as the iteration counter reaches `MAX_ITER` or
`STOP_ITER`, so for positive `MAX_ITER` and `STOP_ITER` the final
iteration count, and with it the number of feature-extractor optimizer
steps performed, is at most `min MAX_ITER STOP_ITER`. -/
theorem termination_bound {W C B P σ : Type} (F : Framework W C B P σ)
    (cfg : Config) (std : Bool) (bs : List B) (s : LoopState W C σ)
    (h0 : s.iteration = 0) (ht : s.trace = [])
    (hM : 0 < cfg.MAX_ITER) (hS : 0 < cfg.STOP_ITER) :
    (trainLoop F cfg std bs s).iteration ≤ min cfg.MAX_ITER cfg.STOP_ITER ∧
    countFeaSteps (trainLoop F cfg std bs s).trace ≤
      min cfg.MAX_ITER cfg.STOP_ITER := by
  have hle := trainLoop_iteration_le F cfg std bs s (by omega)
  have hct := trainLoop_countFeaSteps F cfg std bs s
  rw [h0, ht] at hct
  have hz : countFeaSteps ([] : List Event) = 0 := rfl
  rw [hz] at hct
  exact ⟨hle, by omega⟩

/-- Closed witness for C6: a one-batch run under `cexConfig`
(`MAX_ITER = STOP_ITER = 1`) performs one iteration and one optimizer
step. -/
theorem termination_bound_witness :
    (trainLoop cexFramework cexConfig true [()] cexStart).iteration ≤
      min cexConfig.MAX_ITER cexConfig.STOP_ITER ∧
    countFeaSteps (trainLoop cexFramework cexConfig true [()] cexStart).trace ≤
      min cexConfig.MAX_ITER cexConfig.STOP_ITER :=
  termination_bound cexFramework cexConfig true [()] cexStart rfl rfl
    (by decide) (by decide)

section EvalLemmas

variable {W C B P σ : Type}

lemma testIters_trainBody (F : Framework W C B P σ) (cfg : Config)
    (std : Bool) (b : B) (s : LoopState W C σ) :
    testIters (trainBody F cfg std b s).trace =
      testIters s.trace ++
        (if (s.iteration + 1) % cfg.CHECKPOINT_PERIOD = 0 ∨
            s.iteration + 1 = cfg.STOP_ITER then
          [s.iteration + 1]
         else []) := by
  rw [trainBody_trace_eq]
  unfold testIters
  split_ifs <;> simp [List.filterMap_append]

lemma mem_testIters_trainLoop (F : Framework W C B P σ) (cfg : Config)
    (std : Bool) (bs : List B) (s : LoopState W C σ) (n : ℕ) :
    n ∈ testIters (trainLoop F cfg std bs s).trace ↔
      (n ∈ testIters s.trace ∨
        (s.iteration < n ∧ n ≤ (trainLoop F cfg std bs s).iteration ∧
          (n % cfg.CHECKPOINT_PERIOD = 0 ∨ n = cfg.STOP_ITER))) := by
  induction bs generalizing s with
  | nil =>
    simp only [trainLoop]
    constructor
    · exact Or.inl
    · rintro (h | ⟨h1, h2, _⟩)
      · exact h
      · omega
  | cons b bs ih =>
    unfold trainLoop
    dsimp only
    split
    · rw [testIters_trainBody, trainBody_iteration, List.mem_append]
      constructor
      · rintro (h | h)
        · exact Or.inl h
        · rcases Decidable.em ((s.iteration + 1) % cfg.CHECKPOINT_PERIOD = 0 ∨
            s.iteration + 1 = cfg.STOP_ITER) with hc | hc
          · rw [if_pos hc] at h
            simp only [List.mem_singleton] at h
            subst h
            exact Or.inr ⟨by omega, le_refl _, hc⟩
          · rw [if_neg hc] at h
            simp at h
      · rintro (h | ⟨h1, h2, hc⟩)
        · exact Or.inl h
        · have hn : n = s.iteration + 1 := by omega
          subst hn
          rw [if_pos hc]
          exact Or.inr (by simp)
    · split
      · rw [testIters_trainBody, trainBody_iteration, List.mem_append]
        constructor
        · rintro (h | h)
          · exact Or.inl h
          · rcases Decidable.em ((s.iteration + 1) % cfg.CHECKPOINT_PERIOD = 0 ∨
              s.iteration + 1 = cfg.STOP_ITER) with hc | hc
            · rw [if_pos hc] at h
              simp only [List.mem_singleton] at h
              subst h
              exact Or.inr ⟨by omega, le_refl _, hc⟩
            · rw [if_neg hc] at h
              simp at h
        · rintro (h | ⟨h1, h2, hc⟩)
          · exact Or.inl h
          · have hn : n = s.iteration + 1 := by omega
            subst hn
            rw [if_pos hc]
            exact Or.inr (by simp)
      · rw [ih, testIters_trainBody, List.mem_append]
        have hmono :=
          trainLoop_iteration_mono F cfg std bs (trainBody F cfg std b s)
        rw [trainBody_iteration] at hmono
        constructor
        · rintro ((h | h) | ⟨h1, h2, hc⟩)
          · exact Or.inl h
          · rcases Decidable.em ((s.iteration + 1) % cfg.CHECKPOINT_PERIOD = 0 ∨
              s.iteration + 1 = cfg.STOP_ITER) with hc | hc
            · rw [if_pos hc] at h
              simp only [List.mem_singleton] at h
              subst h
              exact Or.inr ⟨by omega, by omega, hc⟩
            · rw [if_neg hc] at h
              simp at h
          · rw [trainBody_iteration] at h1
            exact Or.inr ⟨by omega, h2, hc⟩
        · rintro (h | ⟨h1, h2, hc⟩)
          · exact Or.inl (Or.inl h)
          · by_cases hn : n = s.iteration + 1
            · subst hn
              rw [if_pos hc]
              exact Or.inl (Or.inr (by simp))
            · exact Or.inr ⟨by rw [trainBody_iteration]; omega, h2, hc⟩

end EvalLemmas

/-- Claim C3: over a whole run started at iteration 0, `run_test` is
invoked exactly at those executed iterations `n` with
`n % CHECKPOINT_PERIOD = 0` or `n = STOP_ITER`; moreover any loop body
pass that evaluates leaves both models back in training mode. -/
theorem periodic_evaluation {W C B P σ : Type} (F : Framework W C B P σ)
    (cfg : Config) (std : Bool) (bs : List B) (s : LoopState W C σ)
    (h0 : s.iteration = 0) (ht : s.trace = [])
    (_hP : 0 < cfg.CHECKPOINT_PERIOD) :
    (∀ n, n ∈ testIters (trainLoop F cfg std bs s).trace ↔
      (1 ≤ n ∧ n ≤ (trainLoop F cfg std bs s).iteration ∧
        (n % cfg.CHECKPOINT_PERIOD = 0 ∨ n = cfg.STOP_ITER))) ∧
    (∀ (b : B) (s' : LoopState W C σ),
      ((s'.iteration + 1) % cfg.CHECKPOINT_PERIOD = 0 ∨
        s'.iteration + 1 = cfg.STOP_ITER) →
      (trainBody F cfg std b s').fea_training = true ∧
        (trainBody F cfg std b s').cls_training = true) := by
  constructor
  · intro n
    rw [mem_testIters_trainLoop, h0, ht]
    have hnil : testIters ([] : List Event) = [] := rfl
    rw [hnil]
    simp only [List.not_mem_nil, false_or]
    constructor
    · rintro ⟨h1, h2, hc⟩
      exact ⟨by omega, h2, hc⟩
    · rintro ⟨h1, h2, hc⟩
      exact ⟨by omega, h2, hc⟩
  · intro b s' h
    exact trainBody_modes_of_eval F cfg std b s' h

/-- Closed witness for C3: in the one-iteration run under `cexConfig`
(`CHECKPOINT_PERIOD = 1`), iteration 1 is an evaluation point. -/
theorem periodic_evaluation_witness :
    1 ∈ testIters (trainLoop cexFramework cexConfig true [()] cexStart).trace ↔
      (1 ≤ 1 ∧
        1 ≤ (trainLoop cexFramework cexConfig true [()] cexStart).iteration ∧
        (1 % cexConfig.CHECKPOINT_PERIOD = 0 ∨ 1 = cexConfig.STOP_ITER)) :=
  (periodic_evaluation cexFramework cexConfig true [()] cexStart rfl rfl
    (by decide)).1 1

section BestLemmas

variable {W C B P σ : Type}

lemma trainBody_best_mIoU (F : Framework W C B P σ) (cfg : Config)
    (std : Bool) (b : B) (s : LoopState W C σ) :
    (trainBody F cfg std b s).best_mIoU =
      if ((s.iteration + 1) % cfg.CHECKPOINT_PERIOD = 0 ∨
          s.iteration + 1 = cfg.STOP_ITER) ∧ std = true then
        (if bodyMIoU F cfg b s > s.best_mIoU then bodyMIoU F cfg b s
         else s.best_mIoU)
      else s.best_mIoU := by
  unfold trainBody bodyMIoU
  dsimp only
  split
  case isTrue h =>
    cases std <;> simp [h]
  case isFalse h =>
    simp [h]

lemma observedMIoUs_trainBody (F : Framework W C B P σ) (cfg : Config)
    (std : Bool) (b : B) (s : LoopState W C σ) :
    observedMIoUs (trainBody F cfg std b s).trace =
      observedMIoUs s.trace ++
        (if (s.iteration + 1) % cfg.CHECKPOINT_PERIOD = 0 ∨
            s.iteration + 1 = cfg.STOP_ITER then
          [bodyMIoU F cfg b s]
         else []) := by
  rw [trainBody_trace_eq]
  unfold observedMIoUs
  split_ifs <;> simp [List.filterMap_append]

lemma trainBody_best_inv (F : Framework W C B P σ) (cfg : Config) (b : B)
    (s : LoopState W C σ)
    (h : s.best_mIoU = (observedMIoUs s.trace).foldl max 0) :
    (trainBody F cfg true b s).best_mIoU =
      (observedMIoUs (trainBody F cfg true b s).trace).foldl max 0 := by
  rw [trainBody_best_mIoU, observedMIoUs_trainBody]
  by_cases hc : (s.iteration + 1) % cfg.CHECKPOINT_PERIOD = 0 ∨
      s.iteration + 1 = cfg.STOP_ITER
  · rw [if_pos ⟨hc, rfl⟩, if_pos hc, List.foldl_append]
    simp only [List.foldl_cons, List.foldl_nil]
    rw [← h]
    rcases lt_or_le s.best_mIoU (bodyMIoU F cfg b s) with h2 | h2
    · rw [if_pos h2, max_eq_right h2.le]
    · rw [if_neg (not_lt.mpr h2), max_eq_left h2]
  · rw [if_neg (fun hand => hc hand.1), if_neg hc, List.append_nil]
    exact h

lemma trainLoop_best_inv (F : Framework W C B P σ) (cfg : Config)
    (bs : List B) (s : LoopState W C σ)
    (h : s.best_mIoU = (observedMIoUs s.trace).foldl max 0) :
    (trainLoop F cfg true bs s).best_mIoU =
      (observedMIoUs (trainLoop F cfg true bs s).trace).foldl max 0 := by
  induction bs generalizing s with
  | nil => simpa [trainLoop] using h
  | cons b bs ih =>
    unfold trainLoop
    dsimp only
    split
    · exact trainBody_best_inv F cfg b s h
    · split
      · exact trainBody_best_inv F cfg b s h
      · exact ih _ (trainBody_best_inv F cfg b s h)

lemma trainBody_best_le (F : Framework W C B P σ) (cfg : Config)
    (std : Bool) (b : B) (s : LoopState W C σ) :
    s.best_mIoU ≤ (trainBody F cfg std b s).best_mIoU := by
  rw [trainBody_best_mIoU]
  split_ifs with h1 h2
  · exact le_of_lt h2
  · exact le_refl _
  · exact le_refl _

lemma trainLoop_best_le (F : Framework W C B P σ) (cfg : Config)
    (std : Bool) (bs : List B) (s : LoopState W C σ) :
    s.best_mIoU ≤ (trainLoop F cfg std bs s).best_mIoU := by
  induction bs generalizing s with
  | nil => simp [trainLoop]
  | cons b bs ih =>
    unfold trainLoop
    dsimp only
    split
    · exact trainBody_best_le F cfg std b s
    · split
      · exact trainBody_best_le F cfg std b s
      · exact le_trans (trainBody_best_le F cfg std b s) (ih _)

end BestLemmas

/-- Counterexample to claim C9 as stated: on a non-zero rank
(`save_to_disk` false) a run whose single evaluation returns mIoU 1/2
leaves `best_mIoU` at 0, which is not the maximum of 0 and the observed
mIoU values. -/
theorem best_mIoU_rank_cex :
    (trainLoop cexFramework cexConfig false [()] cexStart).best_mIoU ≠
      (observedMIoUs
        (trainLoop cexFramework cexConfig false [()] cexStart).trace).foldl
        max 0 := by
  have h1 : trainLoop cexFramework cexConfig false [()] cexStart =
      trainBody cexFramework cexConfig false () cexStart := by
    unfold trainLoop
    dsimp only
    rw [if_pos]
    rw [trainBody_iteration]
    rfl
  rw [h1, trainBody_best_mIoU, observedMIoUs_trainBody]
  rw [if_neg (by simp)]
  rw [if_pos (Or.inl (by rfl))]
  have hm : bodyMIoU cexFramework cexConfig () cexStart = 1 / 2 := rfl
  rw [hm]
  have hobs : observedMIoUs cexStart.trace = [] := rfl
  rw [hobs]
  simp only [List.nil_append, List.foldl_cons, List.foldl_nil]
  rw [max_eq_right (by norm_num : (0 : ℚ) ≤ 1 / 2)]
  have hb : cexStart.best_mIoU = 0 := rfl
  rw [hb]
  norm_num

/-- Claim C9 (amended to the rank-0 process): on the rank holding
`save_to_disk`, `best_mIoU` starts at 0, is non-decreasing on every rank,
after every evaluation equals the maximum of 0 and all observed mIoU
values, and an evaluation whose mIoU merely equals the current best
leaves `best_mIoU`/`best_iteration` unchanged and writes
`model_current.pth`. -/
theorem best_mIoU_tracking {W C B P σ : Type} (F : Framework W C B P σ)
    (cfg : Config) (bs : List B) (s : LoopState W C σ)
    (h0 : s.best_mIoU = 0) (ht : s.trace = []) :
    (trainLoop F cfg true bs s).best_mIoU =
      (observedMIoUs (trainLoop F cfg true bs s).trace).foldl max 0 ∧
    (∀ (std : Bool) (bs' : List B) (s' : LoopState W C σ),
      s'.best_mIoU ≤ (trainLoop F cfg std bs' s').best_mIoU) ∧
    (∀ (od : String) (s' : LoopState W C σ),
      (checkpointStep true od s'.best_mIoU s').best_mIoU = s'.best_mIoU ∧
      (checkpointStep true od s'.best_mIoU s').best_iteration =
        s'.best_iteration ∧
      (checkpointStep true od s'.best_mIoU s').files =
        s'.files ++ [(pathJoin od "model_current.pth",
          ⟨s'.iteration, s'.fea_w, s'.cls_w, s'.opt_fea, s'.opt_cls⟩)]) := by
  refine ⟨trainLoop_best_inv F cfg bs s (by rw [h0, ht]; rfl),
    fun std bs' s' => trainLoop_best_le F cfg std bs' s',
    fun od s' => ?_⟩
  unfold checkpointStep
  rw [if_pos rfl, if_neg (lt_irrefl _)]
  exact ⟨rfl, rfl, rfl⟩

/-- Closed witness for the amended C9: in the rank-0 one-iteration run the
final best mIoU equals the running maximum of the observed values. -/
theorem best_mIoU_tracking_witness :
    (trainLoop cexFramework cexConfig true [()] cexStart).best_mIoU =
      (observedMIoUs
        (trainLoop cexFramework cexConfig true [()] cexStart).trace).foldl
        max 0 :=
  (best_mIoU_tracking cexFramework cexConfig [()] cexStart rfl rfl).1

section StripLemmas

variable {V : Type}

lemma odInsert_fresh (d : List (String × V)) (k : String) (v : V)
    (h : ∀ q ∈ d, q.1 ≠ k) : odInsert d k v = d ++ [(k, v)] := by
  have hc : ¬ d.any (fun p => p.1 == k) = true := by
    rw [List.any_eq_true]
    rintro ⟨q, hq, hk⟩
    exact h q hq (by simpa using hk)
  unfold odInsert
  rw [if_neg hc]

lemma foldl_odInsert_fresh (l d : List (String × V))
    (h1 : (l.map Prod.fst).Nodup)
    (h2 : ∀ p ∈ l, ∀ q ∈ d, q.1 ≠ p.1) :
    l.foldl (fun acc p => odInsert acc p.1 p.2) d = d ++ l := by
  induction l generalizing d with
  | nil => simp
  | cons p t ih =>
    rw [List.foldl_cons]
    rw [odInsert_fresh d p.1 p.2 (fun q hq => h2 p (by simp) q hq)]
    rw [ih (d ++ [(p.1, p.2)]) (by simpa using h1.of_cons)]
    · simp
    · intro p' hp' q hq
      rcases List.mem_append.mp hq with hq | hq
      · exact h2 p' (by simp [hp']) q hq
      · simp only [List.mem_singleton] at hq
        subst hq
        simp only [List.map_cons, List.nodup_cons] at h1
        intro he
        exact h1.1 (he ▸ List.mem_map_of_mem Prod.fst hp')

lemma strip_foldl_eq (sd : List (String × V)) (pre : String)
    (acc : List (String × V)) :
    sd.foldl
      (fun acc p =>
        if pyStartswith p.1 (pre ++ "layer5") then acc
        else odInsert acc (removeAll p.1 pre) p.2)
      acc =
    ((sd.filter (fun p => !pyStartswith p.1 (pre ++ "layer5"))).map
        (fun p => (removeAll p.1 pre, p.2))).foldl
      (fun acc p => odInsert acc p.1 p.2) acc := by
  induction sd generalizing acc with
  | nil => rfl
  | cons p t ih =>
    rw [List.foldl_cons, List.filter_cons]
    cases h : pyStartswith p.1 (pre ++ "layer5") with
    | true => simp [h, ih]
    | false => simp [h, ih]

end StripLemmas

/-- Counterexample to claim C8 as stated: line 31 uses
`key.replace(prefix, "")`, which removes every occurrence of the prefix,
not only the leading one; on the key `module.module.a` with prefix
`module.` the code produces key `a`, not `module.a` (the key with the
prefix removed). -/
theorem strip_prefix_replace_cex :
    strip_prefix_if_present [("module.module.a", (0 : ℕ))] "module." =
      [("a", 0)] ∧
    strip_prefix_if_present [("module.module.a", (0 : ℕ))] "module." ≠
      [("module.a", 0)] := by
  decide

/-- Claim C8 (amended to Python `str.replace` semantics): if some key does
not start with the prefix, the input dict is returned unchanged; otherwise,
provided the rewritten keys are pairwise distinct, the result contains, in
the input's iteration order, every key with every non-overlapping
occurrence of the prefix removed (`str.replace`), except that keys
beginning with prefix + `layer5` are dropped, and all retained values are
unchanged.  (When two rewritten keys collide, the later value overwrites
the earlier entry at its original position, per `OrderedDict`.) -/
theorem strip_prefix_spec {V : Type} (sd : List (String × V)) (pre : String) :
    (¬ sd.all (fun p => pyStartswith p.1 pre) = true →
      strip_prefix_if_present sd pre = sd) ∧
    (sd.all (fun p => pyStartswith p.1 pre) = true →
      ((sd.filter (fun p => !pyStartswith p.1 (pre ++ "layer5"))).map
          (fun p => removeAll p.1 pre)).Nodup →
      strip_prefix_if_present sd pre =
        (sd.filter (fun p => !pyStartswith p.1 (pre ++ "layer5"))).map
          (fun p => (removeAll p.1 pre, p.2))) := by
  constructor
  · intro h
    unfold strip_prefix_if_present
    rw [if_neg h]
  · intro h hnd
    unfold strip_prefix_if_present
    rw [if_pos h, strip_foldl_eq]
    rw [foldl_odInsert_fresh _ _ ?nodup ?fresh]
    · rw [List.nil_append]
    case nodup =>
      simpa [List.map_map, Function.comp] using hnd
    case fresh =>
      intro p _ q hq
      exact absurd hq (List.not_mem_nil q)

/-- Closed witness for the amended C8: both keys carry the prefix, the
`layer5` entry is dropped, and the surviving key is rewritten with its
value intact. -/
theorem strip_prefix_spec_witness :
    strip_prefix_if_present
        [("module.a", (0 : ℕ)), ("module.layer5.b", 1)] "module." =
      [("a", 0)] := by
  have h := (strip_prefix_spec
    [("module.a", (0 : ℕ)), ("module.layer5.b", 1)] "module.").2
    (by decide) (by decide)
  rw [h]
  decide

section MetricLemmas

lemma range_map_getD {α : Type} (l : List α) (d : α) :
    (List.range l.length).map (fun i => l.getD i d) = l := by
  induction l with
  | nil => rfl
  | cons x t ih =>
    rw [List.length_cons, List.range_succ_eq_map, List.map_cons, List.map_map]
    congr 1

lemma vadd_getD (a b : Vec) (c : ℕ) (hc : c < a.length)
    (hab : a.length = b.length) :
    (vadd a b).getD c 0 = a.getD c 0 + b.getD c 0 := by
  unfold vadd
  have hc2 : c < (List.zipWith (fun x y => x + y) a b).length := by
    rw [List.length_zipWith]
    omega
  rw [List.getD_eq_getElem _ _ hc2, List.getElem_zipWith,
    List.getD_eq_getElem _ _ hc, List.getD_eq_getElem _ _ (by omega : c < b.length)]

lemma foldl_vadd_eq (n : ℕ) (vs : List Vec) (acc : Vec)
    (hacc : acc.length = n) (hvs : ∀ v ∈ vs, v.length = n) :
    vs.foldl vadd acc =
      (List.range n).map (fun c => acc.getD c 0 + colSum vs c) := by
  induction vs generalizing acc with
  | nil =>
    subst hacc
    simp only [colSum, List.map_nil, List.sum_nil, add_zero, List.foldl_nil]
    exact (range_map_getD acc 0).symm
  | cons v t ih =>
    rw [List.foldl_cons]
    have hv : v.length = n := hvs v (by simp)
    have hlen : (vadd acc v).length = n := by
      unfold vadd
      rw [List.length_zipWith, hacc, hv]
      omega
    rw [ih (vadd acc v) hlen (fun w hw => hvs w (by simp [hw]))]
    apply List.map_congr_left
    intro c hc
    rw [List.mem_range] at hc
    rw [vadd_getD acc v c (by rw [hacc]; exact hc) (by rw [hacc, hv])]
    have hcol : colSum (v :: t) c = v.getD c 0 + colSum t c := by
      simp [colSum]
    rw [hcol]
    ring

lemma tripleFold_eq (batches : List TestBatch) (m1 m2 m3 : AverageMeter) :
    batches.foldl
      (fun (ms : AverageMeter × AverageMeter × AverageMeter) b =>
        (ms.1.update b.intersection, ms.2.1.update b.union,
         ms.2.2.update b.target))
      (m1, m2, m3) =
    (batches.foldl (fun m b => m.update b.intersection) m1,
     batches.foldl (fun m b => m.update b.union) m2,
     batches.foldl (fun m b => m.update b.target) m3) := by
  induction batches generalizing m1 m2 m3 with
  | nil => rfl
  | cons b t ih => simp [List.foldl_cons, ih]

lemma meterFold_sum (g : TestBatch → Vec) (batches : List TestBatch)
    (m : AverageMeter) :
    (batches.foldl (fun m b => m.update (g b)) m).sum =
      (batches.map g).foldl vadd m.sum := by
  induction batches generalizing m with
  | nil => rfl
  | cons b t ih =>
    rw [List.foldl_cons, List.map_cons, List.foldl_cons, ih]
    rfl

lemma meter_sum_eq (n : ℕ) (g : TestBatch → Vec) (batches : List TestBatch)
    (h : ∀ b ∈ batches, (g b).length = n) :
    (batches.foldl (fun m b => m.update (g b)) (AverageMeter.init n)).sum =
      (List.range n).map (fun c => colSum (batches.map g) c) := by
  rw [meterFold_sum]
  have hinit : (AverageMeter.init n).sum = List.replicate n 0 := rfl
  rw [hinit]
  rw [foldl_vadd_eq n (batches.map g) (List.replicate n 0) (by simp)
    (fun v hv => by
      obtain ⟨b, hb, rfl⟩ := List.mem_map.mp hv
      exact h b hb)]
  apply List.map_congr_left
  intro c hc
  rw [List.mem_range] at hc
  have hz : (List.replicate n (0 : ℚ)).getD c 0 = 0 := by
    rw [List.getD_eq_getElem _ _ (by simpa using hc)]
    simp
  rw [hz, zero_add]

lemma zipWith_map_same (f : ℚ → ℚ → ℚ) (g1 g2 : ℕ → ℚ) (l : List ℕ) :
    List.zipWith f (l.map g1) (l.map g2) = l.map (fun c => f (g1 c) (g2 c)) := by
  induction l with
  | nil => rfl
  | cons x t ih => simp [ih]

lemma sum_map_add {α : Type} (l : List α) (f g : α → ℚ) :
    (l.map (fun x => f x + g x)).sum = (l.map f).sum + (l.map g).sum := by
  induction l with
  | nil => simp
  | cons x t ih =>
    simp only [List.map_cons, List.sum_cons, ih]
    ring

lemma sum_range_colSum (n : ℕ) (vs : List Vec)
    (h : ∀ v ∈ vs, v.length = n) :
    ((List.range n).map (fun c => colSum vs c)).sum = totalSum vs := by
  induction vs with
  | nil => simp [colSum, totalSum]
  | cons v t ih =>
    have h1 : ∀ w ∈ t, w.length = n := fun w hw => h w (by simp [hw])
    have hv : v.length = n := h v (by simp)
    calc ((List.range n).map (fun c => colSum (v :: t) c)).sum
        = ((List.range n).map (fun c => v.getD c 0 + colSum t c)).sum := by
          have hstep : (List.range n).map (fun c => colSum (v :: t) c) =
              (List.range n).map (fun c => v.getD c 0 + colSum t c) :=
            List.map_congr_left (fun c _ => by simp [colSum])
          rw [hstep]
      _ = ((List.range n).map (fun c => v.getD c 0)).sum +
            ((List.range n).map (fun c => colSum t c)).sum :=
          sum_map_add _ _ _
      _ = v.sum + totalSum t := by
          rw [ih h1]
          congr 1
          rw [← hv, range_map_getD]
      _ = totalSum (v :: t) := by simp [totalSum]

lemma run_testMetrics_formula (n : ℕ) (batches : List TestBatch)
    (hb : ∀ b ∈ batches, b.intersection.length = n ∧
      b.union.length = n ∧ b.target.length = n) :
    run_testMetrics n batches =
      (((List.range n).map (fun c =>
          colSum (batches.map (fun b => b.intersection)) c /
            (colSum (batches.map (fun b => b.union)) c + tiny))).sum /
          (n : ℚ),
       ((List.range n).map (fun c =>
          colSum (batches.map (fun b => b.intersection)) c /
            (colSum (batches.map (fun b => b.target)) c + tiny))).sum /
          (n : ℚ),
       totalSum (batches.map (fun b => b.intersection)) /
         (totalSum (batches.map (fun b => b.target)) + tiny)) := by
  unfold run_testMetrics
  dsimp only
  rw [tripleFold_eq]
  dsimp only
  rw [meter_sum_eq n (fun b => b.intersection) batches
      (fun b h => (hb b h).1),
    meter_sum_eq n (fun b => b.union) batches (fun b h => (hb b h).2.1),
    meter_sum_eq n (fun b => b.target) batches (fun b h => (hb b h).2.2)]
  rw [zipWith_map_same, zipWith_map_same]
  rw [sum_range_colSum n (batches.map (fun b => b.intersection))
      (fun v hv => by
        obtain ⟨b, hb', rfl⟩ := List.mem_map.mp hv
        exact (hb b hb').1),
    sum_range_colSum n (batches.map (fun b => b.target))
      (fun v hv => by
        obtain ⟨b, hb', rfl⟩ := List.mem_map.mp hv
        exact (hb b hb').2.2)]
  unfold npMean
  simp

end MetricLemmas

/-- Claim C4: the mIoU returned by `run_test` is the arithmetic mean over
the `NUM_CLASSES` classes of accumulated intersection over (accumulated
union + 1e-10), with intersection/union/target summed over all test
batches; mAcc and allAcc follow the same pattern, every division guarded
by the additive 1e-10. -/
theorem miou_accumulation (n : ℕ) (batches : List TestBatch) (_hn : 0 < n)
    (hb : ∀ b ∈ batches, b.intersection.length = n ∧
      b.union.length = n ∧ b.target.length = n) :
    run_testMetrics n batches =
      (((List.range n).map (fun c =>
          colSum (batches.map (fun b => b.intersection)) c /
            (colSum (batches.map (fun b => b.union)) c + tiny))).sum /
          (n : ℚ),
       ((List.range n).map (fun c =>
          colSum (batches.map (fun b => b.intersection)) c /
            (colSum (batches.map (fun b => b.target)) c + tiny))).sum /
          (n : ℚ),
       totalSum (batches.map (fun b => b.intersection)) /
         (totalSum (batches.map (fun b => b.target)) + tiny)) :=
  run_testMetrics_formula n batches hb

/-- Closed witness for C4: two classes, two batches; the mean of the two
guarded per-class ratios is returned as mIoU. -/
theorem miou_accumulation_witness :
    run_testMetrics 2 [⟨[1, 0], [2, 1], [1, 1]⟩, ⟨[1, 2], [1, 3], [2, 2]⟩] =
      (((List.range 2).map (fun c =>
          colSum [[(1 : ℚ), 0], [1, 2]] c /
            (colSum [[(2 : ℚ), 1], [1, 3]] c + tiny))).sum / (2 : ℚ),
       ((List.range 2).map (fun c =>
          colSum [[(1 : ℚ), 0], [1, 2]] c /
            (colSum [[(1 : ℚ), 1], [2, 2]] c + tiny))).sum / (2 : ℚ),
       totalSum [[(1 : ℚ), 0], [1, 2]] /
         (totalSum [[(1 : ℚ), 1], [2, 2]] + tiny)) := by
  have h := miou_accumulation 2
    [⟨[1, 0], [2, 1], [1, 1]⟩, ⟨[1, 2], [1, 3], [2, 2]⟩]
    (by norm_num) (by decide)
  exact h

section DistLemmas

lemma range_map_getD_lt (f : ℕ → ℚ) (n c : ℕ) (hc : c < n) (d : ℚ) :
    ((List.range n).map f).getD c d = f c := by
  rw [List.getD_eq_getElem _ _ (by simpa using hc)]
  simp

lemma getD_mem {α : Type} (l : List α) (i : ℕ) (d : α) (h : i < l.length) :
    l.getD i d ∈ l := by
  rw [List.getD_eq_getElem _ _ h]
  exact List.getElem_mem h

lemma vsumN_getD (n : ℕ) (vs : List Vec) (c : ℕ) (hc : c < n)
    (h : ∀ v ∈ vs, v.length = n) :
    (vsumN n vs).getD c 0 = colSum vs c := by
  unfold vsumN
  rw [foldl_vadd_eq n vs (List.replicate n 0) (by simp) h]
  rw [range_map_getD_lt _ n c hc]
  have hz : (List.replicate n (0 : ℚ)).getD c 0 = 0 := by
    rw [List.getD_eq_getElem _ _ (by simpa using hc)]
    simp
  rw [hz, zero_add]

lemma sum_list_range (k : ℕ) (f : ℕ → ℚ) :
    ((List.range k).map f).sum = ∑ i ∈ Finset.range k, f i := by
  induction k with
  | zero => simp
  | succ k ih =>
    rw [List.range_succ, List.map_append, List.sum_append,
      Finset.sum_range_succ, ih]
    simp

lemma sum_map_eq_sum_range {α : Type} (l : List α) (d : α) (f : α → ℚ) :
    (l.map f).sum = ∑ j ∈ Finset.range l.length, f (l.getD j d) := by
  calc (l.map f).sum
      = (((List.range l.length).map (fun i => l.getD i d)).map f).sum := by
        rw [range_map_getD]
    _ = ((List.range l.length).map (f ∘ fun i => l.getD i d)).sum := by
        rw [List.map_map]
    _ = ∑ j ∈ Finset.range l.length, f (l.getD j d) :=
        sum_list_range l.length _

lemma colSum_reduced (g : TestBatch → Vec)
    (hg : ∀ (sh : List (List TestBatch)) (n i : ℕ),
      g (allReduceAt sh n i) =
        vsumN n (sh.map (fun s => g (s.getD i ⟨[], [], []⟩))))
    (n L : ℕ) (shards : List (List TestBatch)) (c : ℕ) (hc : c < n)
    (hL : ∀ sh ∈ shards, sh.length = L)
    (hlen : ∀ sh ∈ shards, ∀ b ∈ sh, (g b).length = n) :
    colSum (((List.range L).map (fun i => allReduceAt shards n i)).map g) c =
      colSum (shards.flatten.map g) c := by
  have hleft :
      colSum (((List.range L).map (fun i => allReduceAt shards n i)).map g) c =
        ∑ j ∈ Finset.range shards.length, ∑ i ∈ Finset.range L,
          (g ((shards.getD j []).getD i ⟨[], [], []⟩)).getD c 0 := by
    calc colSum (((List.range L).map (fun i => allReduceAt shards n i)).map g) c
        = ((List.range L).map
            (fun i => (g (allReduceAt shards n i)).getD c 0)).sum := by
          unfold colSum
          rw [List.map_map, List.map_map]
          rfl
      _ = ∑ i ∈ Finset.range L, (g (allReduceAt shards n i)).getD c 0 :=
          sum_list_range L _
      _ = ∑ i ∈ Finset.range L, ∑ j ∈ Finset.range shards.length,
            (g ((shards.getD j []).getD i ⟨[], [], []⟩)).getD c 0 := by
          apply Finset.sum_congr rfl
          intro i hi
          rw [hg]
          rw [vsumN_getD n _ c hc (fun v hv => by
            obtain ⟨sh, hsh, rfl⟩ := List.mem_map.mp hv
            rcases Nat.lt_or_ge i sh.length with hlt | hge
            · exact hlen sh hsh _ (getD_mem sh i _ hlt)
            · rw [hL sh hsh] at hge
              exact absurd (Finset.mem_range.mp hi) (by omega))]
          unfold colSum
          rw [List.map_map]
          exact sum_map_eq_sum_range shards [] _
      _ = ∑ j ∈ Finset.range shards.length, ∑ i ∈ Finset.range L,
            (g ((shards.getD j []).getD i ⟨[], [], []⟩)).getD c 0 :=
          Finset.sum_comm
  have hright :
      colSum (shards.flatten.map g) c =
        ∑ j ∈ Finset.range shards.length, ∑ i ∈ Finset.range L,
          (g ((shards.getD j []).getD i ⟨[], [], []⟩)).getD c 0 := by
    calc colSum (shards.flatten.map g) c
        = (shards.flatten.map (fun b => (g b).getD c 0)).sum := by
          unfold colSum
          rw [List.map_map]
          rfl
      _ = ((shards.map (List.map (fun b => (g b).getD c 0))).flatten).sum := by
          rw [List.map_flatten]
      _ = (shards.map
            (fun sh => (sh.map (fun b => (g b).getD c 0)).sum)).sum := by
          rw [List.sum_flatten, List.map_map]
          rfl
      _ = ∑ j ∈ Finset.range shards.length,
            ((shards.getD j []).map (fun b => (g b).getD c 0)).sum :=
          sum_map_eq_sum_range shards [] _
      _ = ∑ j ∈ Finset.range shards.length, ∑ i ∈ Finset.range L,
            (g ((shards.getD j []).getD i ⟨[], [], []⟩)).getD c 0 := by
          apply Finset.sum_congr rfl
          intro j hj
          rw [sum_map_eq_sum_range (shards.getD j []) ⟨[], [], []⟩,
            hL _ (getD_mem shards j [] (Finset.mem_range.mp hj))]
  rw [hleft, hright]

lemma run_testDist_eq_flatten (n L : ℕ) (shards : List (List TestBatch))
    (r : ℕ) (hr : r < shards.length)
    (hL : ∀ sh ∈ shards, sh.length = L)
    (hlen : ∀ sh ∈ shards, ∀ b ∈ sh, b.intersection.length = n ∧
      b.union.length = n ∧ b.target.length = n) :
    run_testDist n shards r = run_testMetrics n shards.flatten := by
  unfold run_testDist
  rw [hL _ (getD_mem shards r [] hr)]
  have hred : ∀ b ∈ (List.range L).map (fun i => allReduceAt shards n i),
      b.intersection.length = n ∧ b.union.length = n ∧
        b.target.length = n := by
    intro b hb
    obtain ⟨i, hi, rfl⟩ := List.mem_map.mp hb
    rw [List.mem_range] at hi
    have hv : ∀ (g : TestBatch → Vec),
        (∀ sh ∈ shards, ∀ b' ∈ sh, (g b').length = n) →
        (vsumN n (shards.map (fun s => g (s.getD i ⟨[], [], []⟩)))).length = n := by
      intro g hgl
      unfold vsumN
      rw [foldl_vadd_eq n _ (List.replicate n 0) (by simp) (fun v hv => by
        obtain ⟨sh, hsh, rfl⟩ := List.mem_map.mp hv
        have : i < sh.length := by rw [hL sh hsh]; exact hi
        exact hgl sh hsh _ (getD_mem sh i _ this))]
      simp
    exact ⟨hv (fun b => b.intersection) (fun sh hsh b' hb' => (hlen sh hsh b' hb').1),
      hv (fun b => b.union) (fun sh hsh b' hb' => (hlen sh hsh b' hb').2.1),
      hv (fun b => b.target) (fun sh hsh b' hb' => (hlen sh hsh b' hb').2.2)⟩
  have hflat : ∀ b ∈ shards.flatten, b.intersection.length = n ∧
      b.union.length = n ∧ b.target.length = n := by
    intro b hb
    obtain ⟨sh, hsh, hb'⟩ := List.mem_flatten.mp hb
    exact hlen sh hsh b hb'
  rw [run_testMetrics_formula n _ hred, run_testMetrics_formula n _ hflat]
  have ecol : ∀ (g : TestBatch → Vec),
      (∀ (sh : List (List TestBatch)) (n' i : ℕ),
        g (allReduceAt sh n' i) =
          vsumN n' (sh.map (fun s => g (s.getD i ⟨[], [], []⟩)))) →
      (∀ sh ∈ shards, ∀ b ∈ sh, (g b).length = n) →
      ∀ c < n,
      colSum (((List.range L).map (fun i => allReduceAt shards n i)).map g) c =
        colSum (shards.flatten.map g) c := by
    intro g hg hgl c hc
    exact colSum_reduced g hg n L shards c hc hL hgl
  have eI := ecol (fun b => b.intersection) (fun _ _ _ => rfl)
    (fun sh hsh b hb => (hlen sh hsh b hb).1)
  have eU := ecol (fun b => b.union) (fun _ _ _ => rfl)
    (fun sh hsh b hb => (hlen sh hsh b hb).2.1)
  have eT := ecol (fun b => b.target) (fun _ _ _ => rfl)
    (fun sh hsh b hb => (hlen sh hsh b hb).2.2)
  have etot : ∀ (g : TestBatch → Vec),
      (∀ b ∈ (List.range L).map (fun i => allReduceAt shards n i),
        (g b).length = n) →
      (∀ b ∈ shards.flatten, (g b).length = n) →
      (∀ c < n,
        colSum (((List.range L).map (fun i => allReduceAt shards n i)).map g) c =
          colSum (shards.flatten.map g) c) →
      totalSum (((List.range L).map (fun i => allReduceAt shards n i)).map g) =
        totalSum (shards.flatten.map g) := by
    intro g hg1 hg2 hceq
    rw [← sum_range_colSum n _ (fun v hv => by
        obtain ⟨b, hb, rfl⟩ := List.mem_map.mp hv
        exact hg1 b hb),
      ← sum_range_colSum n _ (fun v hv => by
        obtain ⟨b, hb, rfl⟩ := List.mem_map.mp hv
        exact hg2 b hb)]
    congr 1
    apply List.map_congr_left
    intro c hc
    rw [List.mem_range] at hc
    exact hceq c hc
  simp only [Prod.mk.injEq]
  refine ⟨?_, ?_, ?_⟩
  · congr 1
    congr 1
    apply List.map_congr_left
    intro c hc
    rw [List.mem_range] at hc
    rw [eI c hc, eU c hc]
  · congr 1
    congr 1
    apply List.map_congr_left
    intro c hc
    rw [List.mem_range] at hc
    rw [eI c hc, eT c hc]
  · rw [etot (fun b => b.intersection) (fun b hb => (hred b hb).1)
        (fun b hb => (hflat b hb).1) eI,
      etot (fun b => b.target) (fun b hb => (hred b hb).2.2)
        (fun b hb => (hflat b hb).2.2) eT]

end DistLemmas

/-- Claim C7: with equal-length shards, the per-batch all-reduce (modelled
as the elementwise sum across ranks) makes `run_test` return the same
mIoU/mAcc/allAcc on every rank, equal to the metrics of the combined
(flattened) shard stream; and the per-worker training batch size is
`BATCH_SIZE` divided by the world size. -/
theorem distributed_metric_aggregation (cfg : Config) (world_size : ℕ)
    (n L : ℕ) (shards : List (List TestBatch)) (r r' : ℕ)
    (hr : r < shards.length) (hr' : r' < shards.length)
    (hL : ∀ sh ∈ shards, sh.length = L)
    (hlen : ∀ sh ∈ shards, ∀ b ∈ sh, b.intersection.length = n ∧
      b.union.length = n ∧ b.target.length = n) :
    run_testDist n shards r = run_testDist n shards r' ∧
    run_testDist n shards r = run_testMetrics n shards.flatten ∧
    trainBatchSize cfg true world_size = cfg.BATCH_SIZE / world_size := by
  have h1 := run_testDist_eq_flatten n L shards r hr hL hlen
  have h2 := run_testDist_eq_flatten n L shards r' hr' hL hlen
  exact ⟨h1.trans h2.symm, h1, rfl⟩

/-- Closed witness for C7: two ranks with one batch each; both ranks see
the same all-reduced metrics, equal to those of the combined stream. -/
theorem distributed_metric_aggregation_witness :
    run_testDist 1 [[⟨[1], [1], [1]⟩], [⟨[2], [3], [4]⟩]] 0 =
      run_testDist 1 [[⟨[1], [1], [1]⟩], [⟨[2], [3], [4]⟩]] 1 ∧
    run_testDist 1 [[⟨[1], [1], [1]⟩], [⟨[2], [3], [4]⟩]] 0 =
      run_testMetrics 1
        ([[⟨[1], [1], [1]⟩], [⟨[2], [3], [4]⟩]] :
          List (List TestBatch)).flatten ∧
    trainBatchSize cexConfig true 2 = cexConfig.BATCH_SIZE / 2 :=
  distributed_metric_aggregation cexConfig 2 1 1
    [[⟨[1], [1], [1]⟩], [⟨[2], [3], [4]⟩]] 0 1
    (by norm_num) (by norm_num) (by decide) (by decide)

end ProCA
